import Mathlib

/-!
# Verification of the mutation↔structure correlation engine

Shallow embedding of the core logic of the bioinformatics frontend:
the energy-table parser (`GlobalService.parseFullDat`), the heatmap
matrix builder (`MutationAnalysisComponent.onShowAllHeatmap`), the
mutation-data cache update performed by `GlobalService.loadExistingJob`
and `PdbInputFormComponent.loadDatFilesAndPlot`, the structure-file
resolver and residue locator of
`MutationAnalysisComponent.plotMutationHeatmap`, and the bulk loading
loop of `GlobalService.loadAllPdbsFromBackend`.

Strings are modelled over their character lists; JavaScript regular
expressions used by the source are embedded as explicit executable
matching functions with the same leftmost-match semantics on the ASCII
inputs the application handles.  Energies (JS numbers produced by
`parseFloat` on signed decimal tokens) are modelled as rationals; the
`NaN` sentinel used by the heatmap grids is modelled as `Option.none`.
-/

namespace Bio

/-! ## Character classes (ASCII, as used by the source regexes) -/

/-- Characters matched by the class `[A-Z0-9_]` of the identifier regex in
`parseFullDat`. -/
def isIdChar (c : Char) : Bool :=
  (('A' ≤ c) && (c ≤ 'Z')) || (('0' ≤ c) && (c ≤ '9')) || (c == '_')

/-- Characters matched by the regex class `\d`. -/
def isDigitC (c : Char) : Bool :=
  ('0' ≤ c) && (c ≤ '9')

/-- Characters matched by the regex class `\s` (ASCII whitespace; also the
characters removed by JavaScript `String.prototype.trim`). -/
def isSpaceC (c : Char) : Bool :=
  (c == ' ') || (c == '\t') || (c == '\n') || (c == '\r') ||
  (c == '\x0b') || (c == '\x0c')

/-- ASCII uppercase letters, the class `[A-Z]`. -/
def isUpperAZ (c : Char) : Bool :=
  ('A' ≤ c) && (c ≤ 'Z')

/-- ASCII lowercase letters, the class `[a-z]`. -/
def isLowerAZ (c : Char) : Bool :=
  ('a' ≤ c) && (c ≤ 'z')

/-- ASCII letters, the class `[a-z]` under the case-insensitive flag. -/
def isAlphaCI (c : Char) : Bool :=
  isUpperAZ c || isLowerAZ c

/-- JavaScript `toLowerCase` restricted to the ASCII range handled by the
application (filenames and table keys are ASCII). -/
def lowerC (c : Char) : Char :=
  if isUpperAZ c then Char.ofNat (c.toNat + 32) else c

/-- JavaScript `toUpperCase` restricted to ASCII. -/
def upperC (c : Char) : Char :=
  if isLowerAZ c then Char.ofNat (c.toNat - 32) else c

/-- Lowercase an ASCII character list (model of `s.toLowerCase()`). -/
def lowerList (cs : List Char) : List Char := cs.map lowerC

/-- Uppercase an ASCII character list (model of `s.toUpperCase()`). -/
def upperList (cs : List Char) : List Char := cs.map upperC

/-- Model of `s.toUpperCase()` on strings. -/
def upperStr (s : String) : String := String.mk (upperList s.toList)

/-- JavaScript `String.prototype.trim` (strip whitespace at both ends). -/
def trimJS (s : String) : String :=
  String.mk (((s.toList.dropWhile isSpaceC).reverse.dropWhile isSpaceC).reverse)

/-- Digit list to natural number (base 10). -/
def natOfDigits (ds : List Char) : Nat :=
  ds.foldl (fun n c => 10 * n + (c.toNat - 48)) 0

/-! ## The energy-table parser (`GlobalService.parseFullDat`)

Source regex on each kept line: `([A-Z0-9_]+)\s+(-?\d+(?:\.\d+)?)`, an
unanchored leftmost search.  A successful match captures the identifier
(a maximal `[A-Z0-9_]` run) and the signed decimal token that follows
the whitespace after that run. -/

/-- The signed decimal token captured by `(-?\d+(?:\.\d+)?)`: sign flag,
integer digits and fractional digits. -/
structure NumTok where
  neg : Bool
  intDigits : List Char
  fracDigits : List Char
  deriving DecidableEq, Repr

/-- Match `-?\d+(?:\.\d+)?` at the start of `cs` given the sign already
consumed: greedy digit run, then an optional fraction that only counts
when at least one digit follows the dot. -/
def digitsNum (neg : Bool) (cs : List Char) : Option NumTok :=
  let ds := cs.takeWhile isDigitC
  if ds.isEmpty then none
  else some (match cs.dropWhile isDigitC with
    | '.' :: r2 =>
      let fs := r2.takeWhile isDigitC
      if fs.isEmpty then ⟨neg, ds, []⟩ else ⟨neg, ds, fs⟩
    | _ => ⟨neg, ds, []⟩)

/-- Match `\s+-?\d+(?:\.\d+)?` at the start of `cs`: at least one
whitespace character, an optional minus sign, then the decimal token. -/
def numTail (cs : List Char) : Option NumTok :=
  if (cs.takeWhile isSpaceC).isEmpty then none
  else match cs.dropWhile isSpaceC with
    | '-' :: r => digitsNum true r
    | r => digitsNum false r

/-- Match `([A-Z0-9_]+)\s+(-?\d+(?:\.\d+)?)` anchored at the start of
`cs`: a greedy (maximal, nonempty) identifier run followed by the
whitespace-and-number tail.  Greediness never needs backtracking here:
identifier characters are not whitespace, so only the maximal run can be
followed by `\s`. -/
def matchHere (cs : List Char) : Option (List Char × NumTok) :=
  let run := cs.takeWhile isIdChar
  if run.isEmpty then none
  else (numTail (cs.dropWhile isIdChar)).map (fun nt => (run, nt))

/-- Leftmost match of `([A-Z0-9_]+)\s+(-?\d+(?:\.\d+)?)` in `cs`: the
match at the earliest start position, i.e. the first suffix at which the
anchored match succeeds. -/
def firstMatch (cs : List Char) : Option (List Char × NumTok) :=
  (cs.tails.filterMap matchHere).head?

/-- First contiguous digit run in the identifier (the regex `(\d+)`,
leftmost match). -/
def firstDigitRun : List Char → Option (List Char)
  | [] => none
  | c :: rest =>
    if isDigitC c then some (c :: rest.takeWhile isDigitC)
    else firstDigitRun rest

/-- Residue label extracted from a matched identifier: the first digit
run, or the literal fallback `UNK` (source: `id.match(/(\d+)/)`). -/
def residueStr (id : List Char) : String :=
  match firstDigitRun id with
  | some r => String.mk r
  | none => "UNK"

/-- Mutant label extracted from a matched identifier: its trailing
character when that is an uppercase letter, else the fallback `?`
(source: `id.match(/([A-Z])$/)`). -/
def mutantStr (id : List Char) : String :=
  match id.getLast? with
  | some c => if isUpperAZ c then String.mk [c] else "?"
  | none => "?"

/-- Value of the matched decimal token (`parseFloat` on the token,
idealised to an exact rational). -/
def ratOfNumTok (t : NumTok) : ℚ :=
  let v : ℚ := (natOfDigits t.intDigits : ℚ) +
    (natOfDigits t.fracDigits : ℚ) / ((10 : ℚ) ^ t.fracDigits.length)
  if t.neg then -v else v

/-- One parsed energy record: `{ residue, mutant, energy }`. -/
structure EnergyRecord where
  residue : String
  mutant : String
  energy : ℚ
  deriving DecidableEq, Repr

/-- One parsed table: `{ file, entries }` as returned by `parseFullDat`. -/
structure ParsedTable where
  file : String
  entries : List EnergyRecord
  deriving DecidableEq, Repr

/-- Does the line start with one of the fixed banner markers dropped by
the parser (`GENERATED`, `SMEHEC`, `JOINING`)? -/
def bannedLine (l : String) : Bool :=
  "GENERATED".toList.isPrefixOf l.toList ||
  "SMEHEC".toList.isPrefixOf l.toList ||
  "JOINING".toList.isPrefixOf l.toList

/-- JavaScript `content.split('\n')` on the character list. -/
def splitNl : List Char → List (List Char)
  | [] => [[]]
  | c :: rest =>
    match splitNl rest with
    | [] => [[]]
    | l :: ls => if c == '\n' then [] :: l :: ls else (c :: l) :: ls

/-- The lines the parser keeps: split on `\n`, trim each, drop empty
lines and banner lines. -/
def keptLines (content : String) : List String :=
  (((splitNl content.toList).map String.mk).map trimJS).filter
    (fun l => (!(l == "")) && (!(bannedLine l)))

/-- The record produced from one kept line, when its leftmost
identifier+number match exists. -/
def lineRecord (l : String) : Option EnergyRecord :=
  (firstMatch l.toList).map
    (fun m => ⟨residueStr m.1, mutantStr m.1, ratOfNumTok m.2⟩)

/-- JavaScript `filename.replace('.dat', '')`: remove the first
occurrence of `.dat` (case-sensitive), if any. -/
def removeFirstDat : List Char → List Char
  | [] => []
  | c :: rest =>
    if ".dat".toList.isPrefixOf (c :: rest) then rest.drop 3
    else c :: removeFirstDat rest

/-- `GlobalService.parseFullDat`: total parse of one energy-table
document into a `ParsedTable`.  Non-matching lines are skipped, never an
error. -/
def parseFullDat (content filename : String) : ParsedTable :=
  ⟨String.mk (removeFirstDat filename.toList),
   (keptLines content).filterMap lineRecord⟩

/-! ## The heatmap matrix builder (`MutationAnalysisComponent.onShowAllHeatmap`)

The source builds `residues`/`mutants` via `Array.from(new Set(...))`
(first-seen order), fills `z` with `NaN` (modelled `none`) and then
writes each entry's energy at `(indexOf residue, indexOf mutant)`. -/

/-- Iteration of `new Set(xs)`: keep each element whose value has not
been seen before, tracking the set of seen values. -/
def firstSeenAux (seen : List String) : List String → List String
  | [] => []
  | a :: rest =>
    if seen.contains a then firstSeenAux seen rest
    else a :: firstSeenAux (a :: seen) rest

/-- `Array.from(new Set(xs))`: distinct elements in first-seen order. -/
def firstSeen (l : List String) : List String := firstSeenAux [] l

/-- JavaScript `Array.prototype.indexOf` returning `none` for `-1`. -/
def idxOf : List String → String → Option Nat
  | [], _ => none
  | a :: l, s => if a == s then some 0 else (idxOf l s).map (· + 1)

/-- Cell read `z[y][x]` of the energy grid (out of range reads `none`,
which never happens for the grids the builder produces). -/
def cellAt (z : List (List (Option ℚ))) (y x : Nat) : Option ℚ :=
  (z.getD y []).getD x none

/-- Cell write `z[y][x] = v`. -/
def setCell (z : List (List (Option ℚ))) (y x : Nat) (v : ℚ) :
    List (List (Option ℚ)) :=
  z.set y ((z.getD y []).set x (some v))

/-- One loop step of the builder: look up both indices and write the
energy when both are found (`if (y !== -1 && x !== -1) z[y][x] = e.energy`). -/
def applyEntry (residues mutants : List String) (z : List (List (Option ℚ)))
    (e : EnergyRecord) : List (List (Option ℚ)) :=
  match idxOf residues e.residue, idxOf mutants e.mutant with
  | some y, some x => setCell z y x e.energy
  | _, _ => z

/-- The axis-labelled matrix handed to the plotting engine. -/
structure EnergyMatrix where
  residues : List String
  mutants : List String
  z : List (List (Option ℚ))
  deriving DecidableEq, Repr

/-- Matrix built from an entry sequence: axes in first-seen order, grid
initialised to the missing sentinel, entries written in order. -/
def buildMatrixOfEntries (entries : List EnergyRecord) : EnergyMatrix :=
  let residues := firstSeen (entries.map (·.residue))
  let mutants := firstSeen (entries.map (·.mutant))
  let z0 := residues.map (fun _ => mutants.map (fun _ => (none : Option ℚ)))
  ⟨residues, mutants, entries.foldl (applyEntry residues mutants) z0⟩

/-- `onShowAllHeatmap`: the combined matrix over all cached tables, the
tables processed in cache order and, inside one table, entries in file
order. -/
def buildCombined (tables : List ParsedTable) : EnergyMatrix :=
  buildMatrixOfEntries (tables.flatMap (·.entries))

/-! ## The mutation-data cache

`parsedByFile` is a JavaScript object used as a string-keyed map:
assignment to an existing key overwrites the value in place, assignment
to a fresh key appends it (`Object.keys` order).  Modelled as an
association list with an upsert. -/

/-- Association-list model of the `parsedByFile` object. -/
abbrev Cache := List (String × ParsedTable)

/-- `parsedByFile[key] = parsed`: overwrite in place or append. -/
def cachePut (m : Cache) (k : String) (v : ParsedTable) : Cache :=
  if m.any (fun p => p.1 == k) then
    m.map (fun p => if p.1 == k then (k, v) else p)
  else m ++ [(k, v)]

/-- `filename.replace(/\.dat$/i, '')`: drop a trailing `.dat`
(case-insensitively), the cache key of a table file. -/
def stripDatKey (name : String) : String :=
  let cs := name.toList
  if 4 ≤ cs.length && lowerList (cs.drop (cs.length - 4)) == ".dat".toList
  then String.mk (cs.take (cs.length - 4))
  else name

/-- The `.dat` loading loop shared by `GlobalService.loadExistingJob` and
`PdbInputFormComponent.loadDatFilesAndPlot`: for each `(filename,
content)` pair, parse and store under the stripped key.  Crucially, the
loop starts from the cache it is given; neither caller resets
`parsedByFile` first. -/
def loadDatFiles (m : Cache) (files : List (String × String)) : Cache :=
  files.foldl (fun acc fc => cachePut acc (stripDatKey fc.1) (parseFullDat fc.2 fc.1)) m

/-! ## The structure-file resolver (`plotMutationHeatmap` click handler)

A clicked cell gives a residue number (digits of the row label) and a
mutant letter (trimmed, lowercased column label; on this application's
heatmaps the column labels are single letters, and the embedding models
that single lowercase character).  The resolver then matches result
filenames against `joined_proc_<resNo>_<wild>2<mutant>.pdb`
case-insensitively, strictly (wild letter decoded from the table key)
before relaxed (any wild letter). -/

/-- The fixed 20-entry three-letter → one-letter amino-acid table
(`threeToOne` in the source). -/
def threeToOne (s : String) : Option Char :=
  if s == "ala" then some 'a' else if s == "arg" then some 'r' else
  if s == "asn" then some 'n' else if s == "asp" then some 'd' else
  if s == "cys" then some 'c' else if s == "gln" then some 'q' else
  if s == "glu" then some 'e' else if s == "gly" then some 'g' else
  if s == "his" then some 'h' else if s == "ile" then some 'i' else
  if s == "leu" then some 'l' else if s == "lys" then some 'k' else
  if s == "met" then some 'm' else if s == "phe" then some 'f' else
  if s == "pro" then some 'p' else if s == "ser" then some 's' else
  if s == "thr" then some 't' else if s == "trp" then some 'w' else
  if s == "tyr" then some 'y' else if s == "val" then some 'v' else none

/-- Try `/inter_ener_([a-z]{3})(\d+)([a-z])$/i` at the current position:
the literal (case-insensitive), three letters, a maximal digit run
(at least one digit), one letter, end of string.  Returns the captured
three-letter group as written. -/
def rowMatchHere (cs : List Char) : Option (List Char) :=
  if lowerList (cs.take 11) == "inter_ener_".toList && 11 ≤ cs.length then
    match cs.drop 11 with
    | a :: b :: c :: rest =>
      if isAlphaCI a && isAlphaCI b && isAlphaCI c then
        let ds := rest.takeWhile isDigitC
        if ds.isEmpty then none
        else match rest.dropWhile isDigitC with
          | [m] => if isAlphaCI m then some [a, b, c] else none
          | _ => none
      else none
    | _ => none
  else none

/-- Leftmost match of `/inter_ener_([a-z]{3})(\d+)([a-z])$/i` over the
table key: scan start positions left to right. -/
def rowMatch : List Char → Option (List Char)
  | [] => none
  | c :: rest =>
    match rowMatchHere (c :: rest) with
    | some w => some w
    | none => rowMatch rest

/-- Wild-type one-letter code decoded from a table key
(`wildOne` in the source; the empty-string fallback is `none`). -/
def decodeWild (key : String) : Option Char :=
  (rowMatch key.toList).bind (fun w3 => threeToOne (String.mk (lowerList w3)))

/-- `strictRx.test f` for the strict pattern
`^joined_proc_<resNo>_<wild>2<mutant>\.pdb$` with the `i` flag: the
pattern is all lowercase, so the test lowercases the filename and
compares exactly. -/
def strictMatch (resNo : Nat) (wild mutant : Char) (f : String) : Bool :=
  lowerList f.toList ==
    ("joined_proc_" ++ Nat.repr resNo ++ "_").toList ++
      [wild, '2', mutant, '.', 'p', 'd', 'b']

/-- `relaxedRx.test f` for the relaxed pattern
`^joined_proc_<resNo>_[a-z]2<mutant>\.pdb$` with the `i` flag. -/
def relaxedMatch (resNo : Nat) (mutant : Char) (f : String) : Bool :=
  let p1 := ("joined_proc_" ++ Nat.repr resNo ++ "_").toList
  let lf := lowerList f.toList
  p1.isPrefixOf lf &&
    (match lf.drop p1.length with
     | [c, t, m, d, p, q, b] =>
       isLowerAZ c && t == '2' && m == mutant &&
         d == '.' && p == 'p' && q == 'd' && b == 'b'
     | _ => false)

/-- The target-finding logic of the click handler: relaxed-only in the
combined view; otherwise the strict tier (when a wild letter decodes
from the selected key) and, if it produced nothing, the relaxed tier. -/
def resolveTarget (selectedMutation : String) (resNo : Nat) (mutant : Char)
    (files : List String) : Option String :=
  if selectedMutation == "All Mutations" then
    files.find? (relaxedMatch resNo mutant)
  else
    let strictT : Option String :=
      match decodeWild selectedMutation with
      | some w => files.find? (strictMatch resNo w mutant)
      | none => none
    match strictT with
    | some t => some t
    | none => files.find? (relaxedMatch resNo mutant)

/-- `parseInt(String(y).replace(/[^\d]/g, ''), 10)`: the digits of the
row label, `none` when there are none (`parseInt('')` is `NaN`). -/
def parseClickedResidue (ylabel : String) : Option Nat :=
  let ds := ylabel.toList.filter isDigitC
  if ds.isEmpty then none else some (natOfDigits ds)

/-- Outcome of the front part of the heatmap click handler, up to and
including target resolution.  Each warning constructor corresponds to a
`toastr.warning` + `return` in the source (so no lookup, removal or load
happens after it); `load` corresponds to entering the PDB-loading
branch with the resolved filename. -/
inductive ClickResult where
  | warnViewerNotReady
  | warnNoResidueNumber
  | warnNoPdbFound (resNo : Nat) (mutantUpper : Char)
  | load (target : String) (resNo : Nat) (mutant : Char)
  deriving DecidableEq, Repr

/-- The click handler prefix of `plotMutationHeatmap`: viewer-readiness
check, row-label digit extraction, then tiered file resolution. -/
def clickOutcome (stageReady : Bool) (selectedMutation : String)
    (files : List String) (ylabel : String) (mutant : Char) : ClickResult :=
  if !stageReady then .warnViewerNotReady
  else match parseClickedResidue ylabel with
    | none => .warnNoResidueNumber
    | some resNo =>
      match resolveTarget selectedMutation resNo mutant files with
      | none => .warnNoPdbFound resNo (upperC mutant)
      | some t => .load t resNo mutant

/-! ## The residue locator tie-break (`plotMutationHeatmap`, part_003)

Among the candidates returned by a locator tier the source prefers
residues whose chain name uppercases to `PROC`, then takes the head of a
stable sort by descending atom count — i.e. the first candidate with the
greatest atom count. -/

/-- Residue summary collected from the loaded structure. -/
structure ResInfo where
  resno : Int
  resname : String
  chainname : String
  atomCount : Nat
  deriving DecidableEq, Repr

/-- Is the candidate in the reserved processed chain
(`r.chainname.toUpperCase() === 'PROC'`)? -/
def isProcChain (r : ResInfo) : Bool :=
  upperStr r.chainname == "PROC"

/-- Head of a stable descending sort by atom count: the first element
attaining the maximal atom count (`.sort((a, b) => b.atomCount -
a.atomCount)[0]` with the stable ECMAScript sort). -/
def pickMaxAtom : List ResInfo → Option ResInfo
  | [] => none
  | r :: rs =>
    match pickMaxAtom rs with
    | none => some r
    | some m => if r.atomCount < m.atomCount then some m else some r

/-- The tie-break applied to a tier's candidates: restrict to processed-
chain candidates when any exist, then pick the first maximal-atom-count
one. -/
def chooseResidue (candidates : List ResInfo) : Option ResInfo :=
  let preferProc := candidates.filter isProcChain
  pickMaxAtom (if preferProc.isEmpty then candidates else preferProc)

/-! ## The bulk structure load (`GlobalService.loadAllPdbsFromBackend`)

Each file is fetched and loaded inside its own `try`/`catch`; a failure
emits a filename-specific error toast and the loop continues.  After the
loop the camera auto-fit runs and the loading indicator is cleared.  The
asynchronous fetch+load of one file is modelled by an oracle returning
`none` on failure. -/

/-- Observable steps of the bulk load, in order. -/
inductive LoadEvent where
  | loaded (filename : String)
  | errorToast (filename : String)
  | autoViewDone
  | loadingFinished
  deriving DecidableEq, Repr

/-- The bulk loading loop: one event per file in list order (success or
filename-specific failure report), then camera auto-fit, then the
loading-finished step. -/
def loadAllPdbs (fetchOk : String → Bool) (files : List String) :
    List LoadEvent :=
  (files.foldl
    (fun acc f =>
      acc ++ [if fetchOk f then LoadEvent.loaded f else LoadEvent.errorToast f])
    []) ++ [LoadEvent.autoViewDone, LoadEvent.loadingFinished]

/-! ## Notions used by the theorem statements -/

/-- Does the record carry residue label `R` and mutant label `M`? -/
def targetsCell (R M : String) (e : EnergyRecord) : Bool :=
  (e.residue == R) && (e.mutant == M)

/-- The grid has `nr` rows of `nc` cells each. -/
def GridShape (z : List (List (Option ℚ))) (nr nc : Nat) : Prop :=
  z.length = nr ∧ ∀ row ∈ z, row.length = nc

/-- `r` is the first contiguous digit run of `id`: a nonempty all-digit
segment preceded only by non-digits and followed by a non-digit (or
nothing). -/
def IsFirstDigitRun (id r : List Char) : Prop :=
  ∃ a b, id = a ++ r ++ b ∧ r ≠ [] ∧
    (∀ c ∈ a, isDigitC c = false) ∧
    (∀ c ∈ r, isDigitC c = true) ∧
    (∀ c ∈ b.take 1, isDigitC c = false)

/-! # Supporting lemmas -/

theorem idxOf_getElem? {l : List String} {s : String} {i : Nat}
    (h : idxOf l s = some i) : l[i]? = some s := by
  induction l generalizing i with
  | nil => simp [idxOf] at h
  | cons a t ih =>
    by_cases ha : (a == s) = true
    · rw [idxOf, if_pos ha] at h
      obtain rfl : (0 : Nat) = i := by simpa using h
      simpa using eq_of_beq ha
    · rcases hmap : idxOf t s with _ | j
      · rw [idxOf, if_neg ha, hmap] at h; simp at h
      · rw [idxOf, if_neg ha, hmap] at h
        obtain rfl : j + 1 = i := by simpa using h
        simpa using ih hmap

theorem idxOf_lt_length {l : List String} {s : String} {i : Nat}
    (h : idxOf l s = some i) : i < l.length := by
  have := idxOf_getElem? h
  exact (List.getElem?_eq_some_iff.mp this).1

theorem idxOf_self_of_nodup {l : List String} (hl : l.Nodup) {i : Nat}
    (h : i < l.length) : idxOf l (l.get ⟨i, h⟩) = some i := by
  induction l generalizing i with
  | nil => simp at h
  | cons a t ih =>
    rcases List.nodup_cons.mp hl with ⟨hna, hnd⟩
    cases i with
    | zero => simp [idxOf]
    | succ j =>
      have hj : j < t.length := by simpa using h
      have hne : (a == t.get ⟨j, hj⟩) = false := by
        refine beq_eq_false_iff_ne.mpr ?_
        intro e
        refine hna ?_
        rw [e]
        exact List.getElem_mem hj
      have hget : (a :: t).get ⟨j + 1, h⟩ = t.get ⟨j, hj⟩ := rfl
      rw [hget, idxOf, if_neg (by intro e; rw [e] at hne; simp at hne), ih hnd hj]
      rfl

theorem getD_mem {z : List (List (Option ℚ))} {y : Nat} (h : y < z.length) :
    z.getD y [] ∈ z := by
  rw [List.getD_eq_getElem?_getD, List.getElem?_eq_getElem h]
  exact List.getElem_mem h

theorem setCell_shape {z : List (List (Option ℚ))} {nr nc : Nat}
    (hz : GridShape z nr nc) {y x : Nat} (hy : y < nr) (v : ℚ) :
    GridShape (setCell z y x v) nr nc := by
  obtain ⟨hlen, hrow⟩ := hz
  refine ⟨by simpa [setCell] using hlen, ?_⟩
  intro row hr
  rcases List.mem_or_eq_of_mem_set hr with hr | rfl
  · exact hrow _ hr
  · have : z.getD y [] ∈ z := getD_mem (hlen ▸ hy)
    simpa using hrow _ this

theorem cellAt_setCell_eq {z : List (List (Option ℚ))} {nr nc : Nat}
    (hz : GridShape z nr nc) {y x : Nat} (hy : y < nr) (hx : x < nc) (v : ℚ) :
    cellAt (setCell z y x v) y x = some v := by
  obtain ⟨hlen, hrow⟩ := hz
  have hyz : y < z.length := hlen ▸ hy
  have hxrow : x < (z.getD y []).length := by
    rw [hrow _ (getD_mem hyz)]; exact hx
  have houter : (z.set y ((z.getD y []).set x (some v))).getD y [] =
      (z.getD y []).set x (some v) := by
    rw [List.getD_eq_getElem?_getD, List.getElem?_set_self',
      List.getElem?_eq_getElem hyz]
    simp [Function.const]
  unfold cellAt setCell
  rw [houter, List.getD_eq_getElem?_getD, List.getElem?_set_self',
    List.getElem?_eq_getElem hxrow]
  simp [Function.const]

theorem cellAt_setCell_ne {z : List (List (Option ℚ))} {y x y' x' : Nat}
    (hne : ¬(y = y' ∧ x = x')) (v : ℚ) :
    cellAt (setCell z y' x' v) y x = cellAt z y x := by
  unfold cellAt setCell
  by_cases hy : y = y'
  · subst hy
    have hx : x ≠ x' := fun e => hne ⟨rfl, e⟩
    by_cases hyz : y < z.length
    · have houter : (z.set y ((z.getD y []).set x' v)).getD y [] =
          (z.getD y []).set x' v := by
        rw [List.getD_eq_getElem?_getD, List.getElem?_set_self',
          List.getElem?_eq_getElem hyz]
        simp [Function.const]
      rw [houter]
      simp [List.getD_eq_getElem?_getD, List.getElem?_set_ne (Ne.symm hx)]
    · rw [List.set_eq_of_length_le (Nat.le_of_not_lt hyz)]
  · rw [List.getD_eq_getElem?_getD (l := z.set y' _),
      List.getElem?_set_ne (Ne.symm hy), ← List.getD_eq_getElem?_getD]

theorem applyEntry_shape {residues mutants : List String}
    {z : List (List (Option ℚ))}
    (hz : GridShape z residues.length mutants.length) (e : EnergyRecord) :
    GridShape (applyEntry residues mutants z e) residues.length mutants.length := by
  rcases hy : idxOf residues e.residue with _ | y <;>
    rcases hx : idxOf mutants e.mutant with _ | x <;>
      simp only [applyEntry, hy, hx]
  · exact hz
  · exact hz
  · exact hz
  · exact setCell_shape hz (idxOf_lt_length hy) _

theorem cellAt_applyEntry {residues mutants : List String}
    (hr : residues.Nodup) (hm : mutants.Nodup)
    {z : List (List (Option ℚ))}
    (hz : GridShape z residues.length mutants.length)
    (e : EnergyRecord) {y x : Nat}
    (hy : y < residues.length) (hx : x < mutants.length) :
    cellAt (applyEntry residues mutants z e) y x =
      if targetsCell (residues.get ⟨y, hy⟩) (mutants.get ⟨x, hx⟩) e = true
      then some e.energy else cellAt z y x := by
  by_cases ht : targetsCell (residues.get ⟨y, hy⟩) (mutants.get ⟨x, hx⟩) e = true
  · simp only [targetsCell, Bool.and_eq_true, beq_iff_eq] at ht
    have h1 : idxOf residues e.residue = some y := by
      rw [ht.1]; exact idxOf_self_of_nodup hr hy
    have h2 : idxOf mutants e.mutant = some x := by
      rw [ht.2]; exact idxOf_self_of_nodup hm hx
    simp only [applyEntry, h1, h2]
    rw [cellAt_setCell_eq hz hy hx]
    rw [if_pos (by simp [targetsCell, ht.1, ht.2])]
  · rw [if_neg ht]
    rcases hy1 : idxOf residues e.residue with _ | y1 <;>
      rcases hx1 : idxOf mutants e.mutant with _ | x1 <;>
        simp only [applyEntry, hy1, hx1]
    refine cellAt_setCell_ne ?_ _
    rintro ⟨rfl, rfl⟩
    refine ht ?_
    have e1 := idxOf_getElem? hy1
    have e2 := idxOf_getElem? hx1
    rw [List.getElem?_eq_getElem hy] at e1
    rw [List.getElem?_eq_getElem hx] at e2
    simp only [Option.some_inj] at e1 e2
    simp [targetsCell, List.get_eq_getElem, e1, e2]

theorem cell_after_fold {residues mutants : List String}
    (hr : residues.Nodup) (hm : mutants.Nodup) :
    ∀ (es : List EnergyRecord) (z : List (List (Option ℚ))),
      GridShape z residues.length mutants.length →
      ∀ {y x : Nat} (hy : y < residues.length) (hx : x < mutants.length),
      cellAt (es.foldl (applyEntry residues mutants) z) y x =
        es.foldl
          (fun a e =>
            if targetsCell (residues.get ⟨y, hy⟩) (mutants.get ⟨x, hx⟩) e = true
            then some e.energy else a)
          (cellAt z y x) := by
  intro es
  induction es with
  | nil => intro z hz y x hy hx; rfl
  | cons e rest ih =>
    intro z hz y x hy hx
    simp only [List.foldl_cons]
    rw [ih _ (applyEntry_shape hz e) hy hx, cellAt_applyEntry hr hm hz e hy hx]

theorem foldl_lastWrite (p : EnergyRecord → Bool) :
    ∀ (es : List EnergyRecord) (acc : Option ℚ),
      es.foldl (fun a e => if p e = true then some e.energy else a) acc =
        (match (es.filter p).getLast? with
         | some e => some e.energy
         | none => acc) := by
  intro es
  induction es with
  | nil => intro acc; rfl
  | cons e rest ih =>
    intro acc
    simp only [List.foldl_cons, List.filter_cons]
    by_cases hp : p e = true
    · rw [if_pos hp, if_pos hp, ih, List.getLast?_cons]
      rcases hlast : (rest.filter p).getLast? with _ | e2 <;> simp [hlast]
    · rw [if_neg hp, if_neg (by simp [hp]), ih]

theorem initGrid_shape (residues mutants : List String) :
    GridShape (residues.map (fun _ => mutants.map (fun _ => (none : Option ℚ))))
      residues.length mutants.length := by
  constructor
  · simp
  · intro row hrow
    rcases List.mem_map.mp hrow with ⟨a, _, rfl⟩
    simp

theorem cellAt_initGrid (residues mutants : List String) (y x : Nat) :
    cellAt (residues.map (fun _ => mutants.map (fun _ => (none : Option ℚ)))) y x
      = none := by
  unfold cellAt
  rw [List.getD_eq_getElem?_getD, List.getD_eq_getElem?_getD, List.getElem?_map]
  rcases residues[y]? with _ | a
  · simp
  · simp only [Option.map_some', Option.getD_some]
    rw [List.getElem?_map]
    rcases mutants[x]? with _ | b <;> simp

theorem mem_firstSeenAux {a : String} :
    ∀ (l : List String) (seen : List String),
      a ∈ firstSeenAux seen l → a ∈ l ∧ seen.contains a = false := by
  intro l
  induction l with
  | nil => intro seen h; simp [firstSeenAux] at h
  | cons b rest ih =>
    intro seen h
    by_cases hc : seen.contains b
    · rw [firstSeenAux, if_pos hc] at h
      rcases ih seen h with ⟨h1, h2⟩
      exact ⟨List.mem_cons_of_mem _ h1, h2⟩
    · rw [firstSeenAux, if_neg hc] at h
      rcases List.mem_cons.mp h with rfl | h2
      · exact ⟨List.mem_cons_self _ _, by simpa using hc⟩
      · rcases ih (b :: seen) h2 with ⟨h1, h3⟩
        have h4 : ¬a = b ∧ a ∉ seen := by simpa using h3
        refine ⟨List.mem_cons_of_mem _ h1, ?_⟩
        simpa using h4.2

theorem nodup_firstSeenAux :
    ∀ (l : List String) (seen : List String), (firstSeenAux seen l).Nodup := by
  intro l
  induction l with
  | nil => intro seen; simp [firstSeenAux]
  | cons b rest ih =>
    intro seen
    by_cases hc : seen.contains b
    · rw [firstSeenAux, if_pos hc]; exact ih seen
    · rw [firstSeenAux, if_neg hc]
      refine List.nodup_cons.mpr ⟨?_, ih (b :: seen)⟩
      intro hmem
      have h2 := (mem_firstSeenAux rest (b :: seen) hmem).2
      simp at h2

theorem nodup_firstSeen (l : List String) : (firstSeen l).Nodup :=
  nodup_firstSeenAux l []

theorem cellAt_buildCombined (tables : List ParsedTable) {y x : Nat}
    (hy : y < (buildCombined tables).residues.length)
    (hx : x < (buildCombined tables).mutants.length) :
    cellAt (buildCombined tables).z y x =
      (match ((tables.flatMap (·.entries)).filter
          (targetsCell ((buildCombined tables).residues.get ⟨y, hy⟩)
            ((buildCombined tables).mutants.get ⟨x, hx⟩))).getLast? with
       | some e => some e.energy
       | none => none) := by
  have hr := nodup_firstSeen ((tables.flatMap (·.entries)).map (·.residue))
  have hm := nodup_firstSeen ((tables.flatMap (·.entries)).map (·.mutant))
  have h1 := cell_after_fold hr hm (tables.flatMap (·.entries))
    _ (initGrid_shape _ _) hy hx
  have h2 := foldl_lastWrite
    (targetsCell ((buildCombined tables).residues.get ⟨y, hy⟩)
      ((buildCombined tables).mutants.get ⟨x, hx⟩))
    (tables.flatMap (·.entries))
    (cellAt ((firstSeen ((tables.flatMap (·.entries)).map (·.residue))).map
      (fun _ => (firstSeen ((tables.flatMap (·.entries)).map (·.mutant))).map
        (fun _ => (none : Option ℚ)))) y x)
  have h3 := h1.trans h2
  rw [cellAt_initGrid] at h3
  exact h3

/-- C4: In a matrix built from one or more parsed tables, a cell whose
(residue, mutant) pair is referenced by no entry of the input tables
holds the missing sentinel (the `NaN` fill, modelled `none`), never the
number `0`; and a cell holds `0` only when some entry actually carries
energy `0` for that pair. -/
theorem missing_cells_stay_nan (tables : List ParsedTable) (y x : Nat)
    (hy : y < (buildCombined tables).residues.length)
    (hx : x < (buildCombined tables).mutants.length) :
    ((∀ e ∈ tables.flatMap (·.entries),
        targetsCell ((buildCombined tables).residues.get ⟨y, hy⟩)
          ((buildCombined tables).mutants.get ⟨x, hx⟩) e = false) →
      cellAt (buildCombined tables).z y x = none) ∧
    (cellAt (buildCombined tables).z y x = some 0 →
      ∃ e ∈ tables.flatMap (·.entries),
        targetsCell ((buildCombined tables).residues.get ⟨y, hy⟩)
          ((buildCombined tables).mutants.get ⟨x, hx⟩) e = true ∧
          e.energy = 0) := by
  constructor
  · intro hnone
    rw [cellAt_buildCombined tables hy hx]
    have : ((tables.flatMap (·.entries)).filter
        (targetsCell ((buildCombined tables).residues.get ⟨y, hy⟩)
          ((buildCombined tables).mutants.get ⟨x, hx⟩))) = [] := by
      refine List.filter_eq_nil_iff.mpr ?_
      intro e he
      simpa using hnone e he
    rw [this]
    rfl
  · intro hzero
    rw [cellAt_buildCombined tables hy hx] at hzero
    rcases hlast : ((tables.flatMap (·.entries)).filter
        (targetsCell ((buildCombined tables).residues.get ⟨y, hy⟩)
          ((buildCombined tables).mutants.get ⟨x, hx⟩))).getLast? with _ | e
    · rw [hlast] at hzero
      simp at hzero
    · have hmem := List.mem_filter.mp (List.mem_of_mem_getLast? hlast)
      refine ⟨e, hmem.1, hmem.2, ?_⟩
      rw [hlast] at hzero
      simpa using hzero

/-- Witness for C4 on a concrete table: the cell (residue 60, mutant G)
is referenced by no entry and reads the missing sentinel. -/
theorem missing_cells_stay_nan_witness :
    cellAt (buildCombined
      [⟨"t1", [⟨"60", "A", 1⟩, ⟨"61", "G", 0⟩]⟩]).z 0 1 = none :=
  (missing_cells_stay_nan [⟨"t1", [⟨"60", "A", 1⟩, ⟨"61", "G", 0⟩]⟩]
    0 1 (by decide) (by decide)).1 (by decide)

/-- C5: When several entries (across tables processed in order, or
inside one table) target the same (residue, mutant) cell, the combined
matrix ends up holding the energy of the last such entry in processing
order, with no error raised. -/
theorem combined_last_write_wins (tables : List ParsedTable) (y x : Nat)
    (hy : y < (buildCombined tables).residues.length)
    (hx : x < (buildCombined tables).mutants.length) (e : EnergyRecord)
    (hlast : ((tables.flatMap (·.entries)).filter
        (targetsCell ((buildCombined tables).residues.get ⟨y, hy⟩)
          ((buildCombined tables).mutants.get ⟨x, hx⟩))).getLast? = some e) :
    cellAt (buildCombined tables).z y x = some e.energy := by
  rw [cellAt_buildCombined tables hy hx, hlast]

/-- Witness for C5 on concrete tables: entries for (60, A) appear in
table t1 with energy 1 and in table t2 with energy 5; the combined cell
holds 5, the energy of the entry processed last. -/
theorem combined_last_write_wins_witness :
    cellAt (buildCombined
      [⟨"t1", [⟨"60", "A", 1⟩]⟩, ⟨"t2", [⟨"60", "A", 5⟩]⟩]).z 0 0 =
      some 5 :=
  combined_last_write_wins
    [⟨"t1", [⟨"60", "A", 1⟩]⟩, ⟨"t2", [⟨"60", "A", 5⟩]⟩]
    0 0 (by decide) (by decide) ⟨"60", "A", 5⟩ (by decide)

theorem find?_exists {α : Type} (p : α → Bool) (l : List α) (a : α)
    (ha : a ∈ l) (hp : p a = true) :
    ∃ t, l.find? p = some t ∧ p t = true := by
  rcases h : l.find? p with _ | t
  · exact absurd hp (by simpa using List.find?_eq_none.mp h a ha)
  · exact ⟨t, rfl, List.find?_some h⟩

/-- C1: With a specific table selected, the resolver honours the
two-tier priority: whenever the table key decodes to a wild-type letter
and some known file matches the strict pattern for the clicked
(residue, mutant), the resolved file is a strict match (the relaxed tier
is not consulted); in the concrete GLU-at-60, mutant-A scenario, with
both an E-encoded and a D-encoded file present the E-encoded file is
returned, and with only the D-encoded file present the relaxed tier
returns the D-encoded file. -/
theorem resolver_two_tier_priority :
    (∀ (key : String) (resNo : Nat) (mutant : Char) (files : List String)
      (w : Char),
      (key == "All Mutations") = false →
      decodeWild key = some w →
      (∃ f ∈ files, strictMatch resNo w mutant f = true) →
      ∃ t, resolveTarget key resNo mutant files = some t ∧
        strictMatch resNo w mutant t = true) ∧
    resolveTarget "inter_ener_glu60c" 60 'a'
      ["joined_proc_60_e2a.pdb", "joined_proc_60_d2a.pdb"] =
        some "joined_proc_60_e2a.pdb" ∧
    resolveTarget "inter_ener_glu60c" 60 'a'
      ["joined_proc_60_d2a.pdb"] = some "joined_proc_60_d2a.pdb" := by
  refine ⟨?_, by decide, by decide⟩
  rintro key resNo mutant files w hk hw ⟨f, hf, hs⟩
  obtain ⟨t, ht, hts⟩ := find?_exists (strictMatch resNo w mutant) files f hf hs
  refine ⟨t, ?_, hts⟩
  simp [resolveTarget, hk, hw, ht]

/-- Witness for C1: in the two-file scenario the resolver returns a
strict match. -/
theorem resolver_two_tier_priority_witness :
    ∃ t, resolveTarget "inter_ener_glu60c" 60 'a'
      ["joined_proc_60_e2a.pdb", "joined_proc_60_d2a.pdb"] = some t ∧
      strictMatch 60 'e' 'a' t = true :=
  resolver_two_tier_priority.1 "inter_ener_glu60c" 60 'a'
    ["joined_proc_60_e2a.pdb", "joined_proc_60_d2a.pdb"] 'e'
    (by decide) (by decide) ⟨"joined_proc_60_e2a.pdb", by decide, by decide⟩

/-- C8: When neither resolver tier finds a structure file, the click
handler ends in the explicit warning naming the clicked residue number
and the uppercased mutant letter; the outcome is not a load, so no
structure is removed and no load is started. -/
theorem resolution_miss_is_warned :
    ∀ (selectedMutation : String) (files : List String) (ylabel : String)
      (mutant : Char) (resNo : Nat),
      parseClickedResidue ylabel = some resNo →
      resolveTarget selectedMutation resNo mutant files = none →
      clickOutcome true selectedMutation files ylabel mutant =
        ClickResult.warnNoPdbFound resNo (upperC mutant) := by
  intro sm files ylabel mutant resNo h1 h2
  simp [clickOutcome, h1, h2]

/-- Witness for C8: a click at residue 60, mutant a with no matching
file yields the specific warning. -/
theorem resolution_miss_is_warned_witness :
    clickOutcome true "inter_ener_glu60c" ["other.pdb"] "60" 'a' =
      ClickResult.warnNoPdbFound 60 (upperC 'a') :=
  resolution_miss_is_warned "inter_ener_glu60c" ["other.pdb"] "60" 'a' 60
    (by decide) (by decide)

/-- C10: A click whose row label contains no digit stops with the
could-not-read-residue-number warning before any file resolution; the
outcome is not a lookup, a removal or a load. -/
theorem digitless_label_warns :
    ∀ (selectedMutation : String) (files : List String) (ylabel : String)
      (mutant : Char),
      (ylabel.toList.filter isDigitC).isEmpty = true →
      clickOutcome true selectedMutation files ylabel mutant =
        ClickResult.warnNoResidueNumber := by
  intro sm files ylabel mutant h
  simp only [clickOutcome, parseClickedResidue]
  rw [if_pos h]
  simp

/-- Witness for C10: clicking the parser fallback row label `UNK`. -/
theorem digitless_label_warns_witness :
    clickOutcome true "All Mutations" ["joined_proc_60_e2a.pdb"] "UNK" 'a' =
      ClickResult.warnNoResidueNumber :=
  digitless_label_warns "All Mutations" ["joined_proc_60_e2a.pdb"] "UNK" 'a'
    (by decide)

theorem pickMaxAtom_spec :
    ∀ (l : List ResInfo), l ≠ [] →
      ∃ m, pickMaxAtom l = some m ∧ m ∈ l ∧
        ∀ r ∈ l, r.atomCount ≤ m.atomCount := by
  intro l
  induction l with
  | nil => intro h; exact absurd rfl h
  | cons r rs ih =>
    intro _
    cases rs with
    | nil =>
      refine ⟨r, rfl, List.mem_cons_self _ _, ?_⟩
      intro r2 hr2
      rcases List.mem_cons.mp hr2 with rfl | h2
      · exact Nat.le_refl _
      · simp at h2
    | cons r2 rs2 =>
      obtain ⟨m, hm, hmem, hmax⟩ := ih (by simp)
      have hstep : pickMaxAtom (r :: r2 :: rs2) =
          (match pickMaxAtom (r2 :: rs2) with
           | none => some r
           | some m => if r.atomCount < m.atomCount then some m
              else some r) := rfl
      by_cases hlt : r.atomCount < m.atomCount
      · refine ⟨m, ?_, List.mem_cons_of_mem _ hmem, ?_⟩
        · rw [hstep, hm]
          exact if_pos hlt
        · intro r3 hr3
          rcases List.mem_cons.mp hr3 with rfl | h3
          · exact Nat.le_of_lt hlt
          · exact hmax _ h3
      · refine ⟨r, ?_, List.mem_cons_self _ _, ?_⟩
        · rw [hstep, hm]
          exact if_neg hlt
        · intro r3 hr3
          rcases List.mem_cons.mp hr3 with rfl | h3
          · exact Nat.le_refl _
          · exact Nat.le_trans (hmax _ h3) (Nat.le_of_not_lt hlt)

/-- C2: For a nonempty candidate list the tie-break picks a candidate of
the reserved processed chain (chain name uppercasing to `PROC`) whenever
one exists — regardless of atom counts elsewhere — and otherwise picks a
candidate with the greatest atom count. -/
theorem locator_processed_chain_tiebreak :
    ∀ (cands : List ResInfo), cands ≠ [] →
      ∃ chosen, chooseResidue cands = some chosen ∧ chosen ∈ cands ∧
        (cands.any isProcChain = true → isProcChain chosen = true) ∧
        (cands.any isProcChain = false →
          ∀ r ∈ cands, r.atomCount ≤ chosen.atomCount) := by
  intro cands hne
  by_cases hp : (cands.filter isProcChain).isEmpty = true
  · obtain ⟨m, hm, hmem, hmax⟩ := pickMaxAtom_spec cands hne
    refine ⟨m, ?_, hmem, ?_, fun _ => hmax⟩
    · simp only [chooseResidue, hp, if_pos]
      exact hm
    · intro hany
      obtain ⟨r0, hr0, hr0p⟩ := List.any_eq_true.mp hany
      have : r0 ∈ cands.filter isProcChain := List.mem_filter.mpr ⟨hr0, hr0p⟩
      rw [List.isEmpty_iff.mp hp] at this
      simp at this
  · have hnil : cands.filter isProcChain ≠ [] := by
      intro h; rw [h] at hp; simp at hp
    obtain ⟨m, hm, hmem, _⟩ := pickMaxAtom_spec (cands.filter isProcChain) hnil
    have hmem2 := List.mem_filter.mp hmem
    refine ⟨m, ?_, hmem2.1, fun _ => hmem2.2, ?_⟩
    · simp only [chooseResidue, hp, if_neg]
      exact hm
    · intro hany
      exact absurd (List.any_eq_true.mpr ⟨m, hmem2.1, hmem2.2⟩)
        (by simp [hany])

/-- Witness for C2: the processed-chain candidate with 3 atoms is
chosen over the other-chain candidate with 10 atoms. -/
theorem locator_processed_chain_tiebreak_witness :
    ∃ chosen,
      chooseResidue [⟨60, "GLU", "A", 10⟩, ⟨60, "GLU", "proc", 3⟩] =
        some chosen ∧
      chosen ∈ [(⟨60, "GLU", "A", 10⟩ : ResInfo), ⟨60, "GLU", "proc", 3⟩] ∧
      (([(⟨60, "GLU", "A", 10⟩ : ResInfo), ⟨60, "GLU", "proc", 3⟩].any
          isProcChain) = true → isProcChain chosen = true) ∧
      (([(⟨60, "GLU", "A", 10⟩ : ResInfo), ⟨60, "GLU", "proc", 3⟩].any
          isProcChain) = false →
        ∀ r ∈ [(⟨60, "GLU", "A", 10⟩ : ResInfo), ⟨60, "GLU", "proc", 3⟩],
          r.atomCount ≤ chosen.atomCount) :=
  locator_processed_chain_tiebreak
    [⟨60, "GLU", "A", 10⟩, ⟨60, "GLU", "proc", 3⟩] (by simp)

theorem cachePut_any (m : Cache) (k' k : String) (v : ParsedTable) :
    ((cachePut m k' v).any (fun p => p.1 == k)) =
      (m.any (fun p => p.1 == k) || (k' == k)) := by
  unfold cachePut
  by_cases h : m.any (fun p => p.1 == k') = true
  · rw [if_pos h, List.any_map]
    by_cases hk : k' = k
    · subst hk
      obtain ⟨p0, hp0, hpk⟩ := List.any_eq_true.mp h
      have hl : (m.any ((fun p => p.1 == k') ∘
          fun p => if (p.1 == k') = true then (k', v) else p)) = true := by
        refine List.any_eq_true.mpr ⟨p0, hp0, ?_⟩
        simp [Function.comp, hpk]
      rw [hl]
      simp
    · have hfun : ((fun p => p.1 == k) ∘
          (fun p : String × ParsedTable =>
            if (p.1 == k') = true then (k', v) else p)) =
          (fun p : String × ParsedTable => p.1 == k) := by
        funext p
        by_cases hp : (p.1 == k') = true
        · have h1 : p.1 = k' := eq_of_beq hp
          simp [Function.comp, hp, beq_eq_false_iff_ne, hk, h1]
        · simp [Function.comp, hp]
      rw [hfun]
      have : (k' == k) = false := beq_eq_false_iff_ne.mpr hk
      rw [this, Bool.or_false]
  · rw [if_neg h, List.any_append]
    simp

/-- The amended C3: loading the energy tables of a new job or archive
does not clear the mutation-data cache — it upserts each new table under
its key, so afterwards a key is present exactly when it was present
before or belongs to one of the new table files. -/
theorem cache_load_preserves_and_upserts :
    ∀ (m : Cache) (files : List (String × String)) (k : String),
      ((loadDatFiles m files).any (fun p => p.1 == k)) =
        (m.any (fun p => p.1 == k) ||
          files.any (fun fc => stripDatKey fc.1 == k)) := by
  intro m files
  induction files generalizing m with
  | nil => intro k; simp [loadDatFiles]
  | cons fc rest ih =>
    intro k
    have hstep : loadDatFiles m (fc :: rest) =
        loadDatFiles (cachePut m (stripDatKey fc.1) (parseFullDat fc.2 fc.1))
          rest := rfl
    rw [hstep, ih, cachePut_any, List.any_cons, Bool.or_assoc]

/-- C3 counterexample: loading archive session `tablea.dat`, then a new
session containing only `tableb.dat`, leaves the stale key `tablea` in
the cache alongside `tableb` — the cache is not cleared, so after the
second load it does not contain exactly the new session's tables. -/
theorem cache_not_cleared_counterexample :
    (loadDatFiles (loadDatFiles [] [("tablea.dat", "R10A 1.0")])
        [("tableb.dat", "R20G 2.0")]).map Prod.fst = ["tablea", "tableb"] ∧
      ["tableb.dat"].map stripDatKey = ["tableb"] := by
  constructor <;> decide

theorem foldl_append_eq_map {α β : Type} (g : α → β) :
    ∀ (l : List α) (acc : List β),
      l.foldl (fun acc f => acc ++ [g f]) acc = acc ++ l.map g := by
  intro l
  induction l with
  | nil => intro acc; simp
  | cons a t ih =>
    intro acc
    rw [List.foldl_cons, ih, List.map_cons]
    simp

/-- C9: In the bulk structure load, each failing file produces its own
filename-specific error report and each non-failing file is still
loaded — one event per file in list order, independent of which other
files fail — and the camera auto-fit and loading-finished steps still
run afterwards. -/
theorem bulk_load_failure_isolation :
    ∀ (fetchOk : String → Bool) (files : List String),
      (∀ f ∈ files,
        (fetchOk f = false →
          LoadEvent.errorToast f ∈ loadAllPdbs fetchOk files) ∧
        (fetchOk f = true →
          LoadEvent.loaded f ∈ loadAllPdbs fetchOk files)) ∧
      loadAllPdbs fetchOk files =
        (files.map (fun f => if fetchOk f then LoadEvent.loaded f
          else LoadEvent.errorToast f)) ++
          [LoadEvent.autoViewDone, LoadEvent.loadingFinished] := by
  intro fetchOk files
  have hmap : loadAllPdbs fetchOk files =
      (files.map (fun f => if fetchOk f then LoadEvent.loaded f
        else LoadEvent.errorToast f)) ++
        [LoadEvent.autoViewDone, LoadEvent.loadingFinished] := by
    unfold loadAllPdbs
    rw [foldl_append_eq_map]
    rfl
  refine ⟨?_, hmap⟩
  intro f hf
  constructor
  · intro hfail
    rw [hmap]
    refine List.mem_append_left _ (List.mem_map.mpr ⟨f, hf, ?_⟩)
    simp [hfail]
  · intro hok
    rw [hmap]
    refine List.mem_append_left _ (List.mem_map.mpr ⟨f, hf, ?_⟩)
    simp [hok]

/-- Witness for C9: with `bad.pdb` failing amid two good files, the
trace contains the filename-specific error, both successful loads, and
the closing auto-fit and loading-finished events. -/
theorem bulk_load_failure_isolation_witness :
    LoadEvent.errorToast "bad.pdb" ∈
      loadAllPdbs (fun f => !(f == "bad.pdb"))
        ["a.pdb", "bad.pdb", "c.pdb"] :=
  ((bulk_load_failure_isolation (fun f => !(f == "bad.pdb"))
      ["a.pdb", "bad.pdb", "c.pdb"]).1 "bad.pdb" (by decide)).1 (by decide)

theorem dropWhile_take_one (p : Char → Bool) :
    ∀ (l : List Char), ∀ c ∈ (l.dropWhile p).take 1, p c = false := by
  intro l
  induction l with
  | nil => intro c hc; simp at hc
  | cons a t ih =>
    intro c hc
    by_cases hp : p a = true
    · rw [List.dropWhile_cons_of_pos hp] at hc
      exact ih c hc
    · rw [List.dropWhile_cons_of_neg hp] at hc
      obtain rfl : c = a := by simpa using hc
      simpa using hp

theorem firstDigitRun_some :
    ∀ {id r : List Char}, firstDigitRun id = some r → IsFirstDigitRun id r := by
  intro id
  induction id with
  | nil => intro r h; simp [firstDigitRun] at h
  | cons c rest ih =>
    intro r h
    by_cases hd : isDigitC c = true
    · rw [firstDigitRun, if_pos hd] at h
      obtain rfl : c :: rest.takeWhile isDigitC = r := by simpa using h
      refine ⟨[], rest.dropWhile isDigitC, ?_, by simp, by simp, ?_, ?_⟩
      · simp [List.takeWhile_append_dropWhile]
      · intro c2 hc2
        rcases List.mem_cons.mp hc2 with rfl | h2
        · exact hd
        · exact List.mem_takeWhile_imp h2
      · exact dropWhile_take_one isDigitC rest
    · rw [firstDigitRun, if_neg hd] at h
      obtain ⟨a, b, heq, hne, ha, hr, hb⟩ := ih h
      refine ⟨c :: a, b, by rw [heq]; rfl, hne, ?_, hr, hb⟩
      intro c2 hc2
      rcases List.mem_cons.mp hc2 with rfl | h2
      · simpa using hd
      · exact ha _ h2

theorem firstDigitRun_none :
    ∀ {id : List Char}, firstDigitRun id = none →
      ∀ c ∈ id, isDigitC c = false := by
  intro id
  induction id with
  | nil => intro _ c hc; simp at hc
  | cons c rest ih =>
    intro h c2 hc2
    by_cases hd : isDigitC c = true
    · rw [firstDigitRun, if_pos hd] at h; simp at h
    · rw [firstDigitRun, if_neg hd] at h
      rcases List.mem_cons.mp hc2 with rfl | h2
      · simpa using hd
      · exact ih h _ h2

/-- C6: The parser is a total function: any document (empty, blank
lines, banner lines, arbitrary noise) yields a `ParsedTable` rather than
an error; its entries come only from kept lines matching the
identifier+number shape; and an empty or fully-noise document yields a
table with zero entries. -/
theorem parse_total_and_lenient :
    ∀ (content key : String),
      ((keptLines content).all
          (fun l => (firstMatch l.toList).isNone) = true →
        (parseFullDat content key).entries = []) ∧
      (∀ e ∈ (parseFullDat content key).entries,
        ∃ l ∈ keptLines content, lineRecord l = some e) ∧
      (parseFullDat "" key).entries = [] := by
  intro content key
  refine ⟨?_, ?_, rfl⟩
  · intro hall
    show (keptLines content).filterMap lineRecord = []
    refine List.filterMap_eq_nil_iff.mpr ?_
    intro l hl
    have h1 := List.all_eq_true.mp hall l hl
    unfold lineRecord
    rcases hm : firstMatch l.toList with _ | m
    · rfl
    · rw [hm] at h1; simp at h1
  · intro e he
    exact List.mem_filterMap.mp he

/-- Witness for C6: a document of banners, blanks and lowercase noise
parses to zero entries with no failure. -/
theorem parse_total_and_lenient_witness :
    (parseFullDat "GENERATED by tool\n\n   \nhello noise\nJOINING x" "k").entries
      = [] :=
  (parse_total_and_lenient "GENERATED by tool\n\n   \nhello noise\nJOINING x"
    "k").1 (by decide)

/-- C7: Every record produced from a matched line has: residue equal to
the first contiguous digit run of the matched identifier (or the literal
`UNK` when the identifier contains no digit), mutant equal to the
identifier's trailing uppercase letter (or `?` when the identifier does
not end in one), and energy equal to the value of the matched signed
decimal token. -/
theorem parsed_record_fields :
    ∀ (l : String) (e : EnergyRecord), lineRecord l = some e →
      ∃ id nt, firstMatch l.toList = some (id, nt) ∧
        ((∃ r, IsFirstDigitRun id r ∧ e.residue = String.mk r) ∨
          ((∀ c ∈ id, isDigitC c = false) ∧ e.residue = "UNK")) ∧
        ((∃ c, id.getLast? = some c ∧ isUpperAZ c = true ∧
            e.mutant = String.mk [c]) ∨
          ((∀ c, id.getLast? = some c → isUpperAZ c = false) ∧
            e.mutant = "?")) ∧
        e.energy = ratOfNumTok nt := by
  intro l e he
  unfold lineRecord at he
  rcases hm : firstMatch l.toList with _ | m
  · rw [hm] at he; simp at he
  · rw [hm] at he
    simp only [Option.map_some', Option.some_inj] at he
    subst he
    refine ⟨m.1, m.2, rfl, ?_, ?_, rfl⟩
    · rcases hr : firstDigitRun m.1 with _ | r
      · refine Or.inr ⟨firstDigitRun_none hr, ?_⟩
        show residueStr m.1 = "UNK"
        unfold residueStr
        rw [hr]
      · refine Or.inl ⟨r, firstDigitRun_some hr, ?_⟩
        show residueStr m.1 = String.mk r
        unfold residueStr
        rw [hr]
    · rcases hl : m.1.getLast? with _ | c
      · refine Or.inr ⟨?_, ?_⟩
        · intro c2 h2
          simp at h2
        · show mutantStr m.1 = "?"
          unfold mutantStr
          rw [hl]
      · by_cases hu : isUpperAZ c = true
        · refine Or.inl ⟨c, rfl, hu, ?_⟩
          show mutantStr m.1 = String.mk [c]
          unfold mutantStr
          rw [hl]
          simp [hu]
        · refine Or.inr ⟨?_, ?_⟩
          · intro c2 h2
            obtain rfl : c = c2 := by simpa using h2
            simpa using hu
          · show mutantStr m.1 = "?"
            unfold mutantStr
            rw [hl]
            simp [hu]

/-- Witness for C7 on the line `PROC_60_E2A -3.45`: the record is
(residue 60, mutant A, energy -3.45). -/
theorem parsed_record_fields_witness :
    ∃ id nt, firstMatch "PROC_60_E2A -3.45".toList = some (id, nt) ∧
      ((∃ r, IsFirstDigitRun id r ∧ ("60" : String) = String.mk r) ∨
        ((∀ c ∈ id, isDigitC c = false) ∧ ("60" : String) = "UNK")) ∧
      ((∃ c, id.getLast? = some c ∧ isUpperAZ c = true ∧
          ("A" : String) = String.mk [c]) ∨
        ((∀ c, id.getLast? = some c → isUpperAZ c = false) ∧
          ("A" : String) = "?")) ∧
      ratOfNumTok ⟨true, ['3'], ['4', '5']⟩ = ratOfNumTok nt :=
  parsed_record_fields "PROC_60_E2A -3.45"
    ⟨"60", "A", ratOfNumTok ⟨true, ['3'], ['4', '5']⟩⟩ rfl

end Bio
